import Mathlib

/-
Verification of the TERA (DHT2VEC) homomorphic-hash content store.

Shallow embedding of the Go sources:
  * crypto (homomorphic hash over integers mod the secp256k1 group order),
  * storage (block store, extension graph, chain verification,
    reconstruction, garbage collection) — the BadgerDB key-value backend
    is modelled as association lists, one per key prefix,
  * semantic (feature records and the parameterised similarity kernel) —
    float64 arithmetic is modelled over the reals,
  * core (contents, extensions, the gatekeeper) and the node publish path.

Byte strings are modelled as `String` (the sources only ever hash,
tokenise and concatenate them; all literals involved are ASCII).  The
external SHA3-256 digest from golang.org/x/crypto is not part of this
repository; it is modelled as an explicit parameter `e : String → Nat`
giving the big-endian integer value of the digest, so every theorem
quantifies over the digest where the Go code calls the library.  Concrete
instantiations used by witnesses appear below.
-/

set_option autoImplicit false

open scoped Classical

namespace Tera

/-! ### crypto: the homomorphic hash primitive -/

/-- Field modulus from crypto: the secp256k1 curve order (`Prime` in hash.go). -/
def Prime : Nat :=
  0xFFFFFFFFFFFFFFFFFFFFFFFFFFFFFFFEBAAEDCE6AF48A03BBFD25E8CD0364141

/-- Go `NewHash` reduces an integer modulo `Prime`; a `Hash` is its reduced value. -/
def NewHash (value : Nat) : Nat := value % Prime

/-- Go `Zero` returns the identity element. -/
def Zero : Nat := NewHash 0

/-- Go `HashElement` applies the 256-bit digest `e` and reduces modulo `Prime`. -/
def HashElement (e : String → Nat) (data : String) : Nat := NewHash (e data)

/-- Go `HashSet` sums the element hashes of a slice and reduces modulo `Prime`. -/
def HashSet (e : String → Nat) (elements : List String) : Nat :=
  NewHash ((elements.map (fun elem => HashElement e elem)).sum)

/-- Go `Extend` computes `H(A ∪ {new})` from `H(A)` in O(1). -/
def Extend (e : String → Nat) (oldHash : Nat) (newElement : String) : Nat :=
  NewHash (oldHash + HashElement e newElement)

/-- Go `Combine` adds two hashes (union of two disjoint sets). -/
def Combine (h1 h2 : Nat) : Nat := NewHash (h1 + h2)

/-- Go `VerifyExtension` checks `newHash == oldHash + H(newElement) mod Prime`. -/
def VerifyExtension (e : String → Nat) (oldHash newHash : Nat) (newElement : String) : Bool :=
  Extend e oldHash newElement == newHash

/-- Digest stand-in used by witnesses: the byte length of the input. -/
def lengthDigest (s : String) : Nat := s.length

/-- Digest stand-in with a trivial collision, for the counterexample to C3. -/
def collisionDigest (_ : String) : Nat := 0

/-! ### semantic: feature records (features.go)

`Features.TopKeywords` is a display-only field never read by any other
function of the sources, and is omitted from the model. -/

/-- Feature record extracted from content (struct `Features`). -/
structure Features where
  TFIDF : List (String × ℝ)
  Ngrams : Finset String
  WordCount : Nat
  CharCount : Nat
  UniqueWords : Nat

/-- The Go zero value `semantic.Features{}`: nil maps and zero counts. -/
def emptyFeatures : Features := ⟨[], ∅, 0, 0, 0⟩

/-- Go `Tokenize`'s character class: Unicode letter or number (ASCII model). -/
def isWordChar (c : Char) : Bool := c.isAlpha || c.isDigit

/-- Accumulating loop of `Tokenize`: split lowercased text on any
non-alphanumeric rune, dropping empty runs. -/
def tokenizeGo : List Char → List Char → List String
  | [], cur => if cur.isEmpty then [] else [String.mk cur.reverse]
  | c :: rest, cur =>
    if isWordChar c then tokenizeGo rest (c :: cur)
    else if cur.isEmpty then tokenizeGo rest cur
    else String.mk cur.reverse :: tokenizeGo rest []

/-- Go `Tokenize` splits text into lowercased alphanumeric words. -/
def Tokenize (text : String) : List String := tokenizeGo text.toLower.data []

/-- Go `ComputeTF`: term counts normalised by total token count (the Go map
is modelled as an association list over the distinct tokens). -/
noncomputable def ComputeTF (words : List String) : List (String × ℝ) :=
  if words.length = 0 then []
  else words.dedup.map (fun w => (w, (words.count w : ℝ) / (words.length : ℝ)))

/-- Go `GenerateNgrams`: character n-grams of the lowercased text (n = 3 by
default); text shorter than n yields the singleton of the whole text. -/
def GenerateNgrams (text : String) (n0 : Nat) : Finset String :=
  let n := if n0 = 0 then 3 else n0
  let t := text.toLower
  if t.length < n then {t}
  else ((List.range (t.length - n + 1)).map
    (fun i => String.mk ((t.data.drop i).take n))).toFinset

/-- Go `ExtractFeatures`: the main entry point of the extractor. -/
noncomputable def ExtractFeatures (content : String) : Features :=
  let words := Tokenize content
  let tf := ComputeTF words
  ⟨tf, GenerateNgrams content 3, words.length, content.length, tf.length⟩

/-! ### semantic: the similarity kernel (kernel.go) -/

/-- Kernel parameters (struct `KernelParams`). -/
structure KernelParams where
  WeightSemantic : ℝ
  WeightLexical : ℝ
  WeightStructural : ℝ
  Threshold : ℝ

/-- Go `DefaultParams`: 0.6 / 0.3 / 0.1 with threshold 0.5. -/
def DefaultParams : KernelParams := ⟨0.6, 0.3, 0.1, 0.5⟩

/-- Go `Normalize` ensures weights sum to 1; an all-zero weight vector is
replaced by `DefaultParams` wholesale. -/
noncomputable def KernelParams.Normalize (p : KernelParams) : KernelParams :=
  let total := p.WeightSemantic + p.WeightLexical + p.WeightStructural
  if total = 0 then DefaultParams
  else ⟨p.WeightSemantic / total, p.WeightLexical / total,
    p.WeightStructural / total, p.Threshold⟩

/-- Lookup in a TF vector; an absent key reads as 0 (Go map access). -/
def tfVal (m : List (String × ℝ)) (k : String) : ℝ := (m.lookup k).getD 0

/-- Key set of a TF vector (Go map key iteration). -/
def tfKeys (m : List (String × ℝ)) : Finset String := (m.map Prod.fst).toFinset

/-- Go `CosineSimilarity` of two TF vectors over the union of their keys;
0 when either magnitude is zero. -/
noncomputable def CosineSimilarity (a b : List (String × ℝ)) : ℝ :=
  let allKeys := tfKeys a ∪ tfKeys b
  let dotProduct := Finset.sum allKeys (fun k => tfVal a k * tfVal b k)
  let magA := Real.sqrt (Finset.sum allKeys (fun k => tfVal a k * tfVal a k))
  let magB := Real.sqrt (Finset.sum allKeys (fun k => tfVal b k * tfVal b k))
  if magA = 0 ∨ magB = 0 then 0 else dotProduct / (magA * magB)

/-- Go `JaccardSimilarity` of two n-gram sets; two empty sets give 1. -/
noncomputable def JaccardSimilarity (a b : Finset String) : ℝ :=
  if a.card = 0 ∧ b.card = 0 then 1
  else
    let u := a ∪ b
    let inter := (b ∩ a).card
    if u.card = 0 then 0 else (inter : ℝ) / (u.card : ℝ)

/-- Go `StructuralSimilarity`: average of `1 − |a−b|/max(a,b)` over the
non-zero of word count and unique-word count; both zero gives 1. -/
noncomputable def StructuralSimilarity (a b : Features) : ℝ :=
  let wordCountDiff := |(a.WordCount : ℝ) - (b.WordCount : ℝ)|
  let maxWordCount := max (a.WordCount : ℝ) (b.WordCount : ℝ)
  let uniqueWordsDiff := |(a.UniqueWords : ℝ) - (b.UniqueWords : ℝ)|
  let maxUniqueWords := max (a.UniqueWords : ℝ) (b.UniqueWords : ℝ)
  if maxWordCount = 0 ∧ maxUniqueWords = 0 then 1
  else
    let sims := (if maxWordCount > 0 then [1 - wordCountDiff / maxWordCount] else [])
      ++ (if maxUniqueWords > 0 then [1 - uniqueWordsDiff / maxUniqueWords] else [])
    sims.sum / (sims.length : ℝ)

/-- Go `Similarity`: normalise the parameters, combine the three component
similarities by weight, and clamp to [0, 1]. -/
noncomputable def Similarity (a b : Features) (params : KernelParams) : ℝ :=
  let q := params.Normalize
  let semantic := CosineSimilarity a.TFIDF b.TFIDF
  let lexical := JaccardSimilarity a.Ngrams b.Ngrams
  let structural := StructuralSimilarity a b
  max 0 (min 1 (q.WeightSemantic * semantic + q.WeightLexical * lexical
    + q.WeightStructural * structural))

/-- Squared TF magnitude of a feature record (the quantity whose square
root is `magA` in `CosineSimilarity a a`). -/
noncomputable def tfNormSq (a : Features) : ℝ :=
  Finset.sum (tfKeys a.TFIDF) (fun k => tfVal a.TFIDF k * tfVal a.TFIDF k)

/-! ### core: content, dual hash, extensions, queries (content.go) -/

/-- Go `DualHash`: cryptographic plus semantic hash of one content. -/
structure DualHash where
  Crypto : Nat
  Semantic : Features

/-- Go `Content`: raw data with its dual hash (`ID` metadata omitted). -/
structure Content where
  Data : String
  Crypto : Nat
  Semantic : Features

/-- Go `NewContent` computes the dual hash of raw data. -/
noncomputable def NewContent (e : String → Nat) (data : String) : Content :=
  ⟨data, HashElement e data, ExtractFeatures data⟩

/-- Go `Content.Extend`: append data, extend the crypto hash in O(1),
re-extract features from the combined content. -/
noncomputable def ContentExtend (e : String → Nat) (c : Content) (newData : String) : Content :=
  ⟨c.Data ++ newData, Extend e c.Crypto newData, ExtractFeatures (c.Data ++ newData)⟩

/-- Go `Content.GetDualHash`. -/
def GetDualHash (c : Content) : DualHash := ⟨c.Crypto, c.Semantic⟩

/-- Go `Extension`: a gossiped extension announcement (`Timestamp` and
`Publisher` metadata omitted). -/
structure Extension where
  ParentHash : DualHash
  NewData : String
  NewHash : DualHash

/-- Go `Extension.VerifyCrypto`: check the homomorphic extension proof. -/
def VerifyCrypto (e : String → Nat) (ext : Extension) : Bool :=
  VerifyExtension e ext.ParentHash.Crypto ext.NewHash.Crypto ext.NewData

/-- Go `Extension.ComputeSemanticSimilarity` against a query's features. -/
noncomputable def ComputeSemanticSimilarity (ext : Extension) (query : Features)
    (params : KernelParams) : ℝ :=
  Similarity ext.NewHash.Semantic query params

/-- Go `Query`: search content with its features and kernel parameters. -/
structure Query where
  Content : String
  Features : Features
  Params : KernelParams

/-- Go `NewQuery` extracts the features of the query content. -/
noncomputable def NewQuery (content : String) (params : KernelParams) : Query :=
  ⟨content, ExtractFeatures content, params⟩

/-! ### core: the gatekeeper (gatekeeper.go) -/

/-- Gatekeeper statistics counters. -/
structure Gatekeeper where
  TotalSeen : Nat
  CryptoBlocked : Nat
  SemanticBlocked : Nat
  Forwarded : Nat

/-- Go `NewGatekeeper`: all counters zero. -/
def newGatekeeper : Gatekeeper := ⟨0, 0, 0, 0⟩

/-- Result of the gatekeeping decision (numeric text in `Reason` is
abstracted to a fixed string). -/
structure GatekeeperDecision where
  ShouldForward : Bool
  Reason : String
  CryptoValid : Bool
  SemanticRelevant : Bool
  SimilarityScore : ℝ

/-- Go `Gatekeeper.ShouldForward`: count the extension, apply the crypto
gate then the semantic gate, incrementing exactly one outcome counter. -/
noncomputable def ShouldForward (e : String → Nat) (gk : Gatekeeper) (ext : Extension)
    (query : Query) : Gatekeeper × GatekeeperDecision :=
  let gk1 := { gk with TotalSeen := gk.TotalSeen + 1 }
  let cryptoValid := VerifyCrypto e ext
  if cryptoValid = false then
    ({ gk1 with CryptoBlocked := gk1.CryptoBlocked + 1 },
      ⟨false, "crypto verification failed: invalid extension", false, false, 0⟩)
  else
    let sim := ComputeSemanticSimilarity ext query.Features query.Params
    if sim ≥ query.Params.Threshold then
      ({ gk1 with Forwarded := gk1.Forwarded + 1 },
        ⟨true, "passed: valid extension", true, true, sim⟩)
    else
      ({ gk1 with SemanticBlocked := gk1.SemanticBlocked + 1 },
        ⟨false, "semantic filter: similarity below threshold", true, false, sim⟩)

/-- Go `Node.Publish` wraps content as an extension from the zero hash
(node.go): a first publish is an extension of the identity element. -/
def Publish (c : Content) : Extension :=
  ⟨⟨Zero, emptyFeatures⟩, c.Data, GetDualHash c⟩

/-- The counter relation of property P9. -/
def gkInvariant (gk : Gatekeeper) : Prop :=
  gk.TotalSeen = gk.CryptoBlocked + gk.SemanticBlocked + gk.Forwarded

/-! ### storage: the key-value model

BadgerDB with the `blk:`/`ext:`/`children:`/`root:` key prefixes is
modelled as four association lists keyed by the (reduced) hash value;
`kvSet` overwrites an existing key in place, as a KV put does. -/

/-- Association-list lookup (`txn.Get`). -/
def kvGet {α : Type} (k : Nat) : List (Nat × α) → Option α
  | [] => none
  | (k', v) :: t => if k' = k then some v else kvGet k t

/-- Association-list store (`txn.Set`): overwrite or append. -/
def kvSet {α : Type} (k : Nat) (v : α) : List (Nat × α) → List (Nat × α)
  | [] => [(k, v)]
  | (k', v') :: t => if k' = k then (k, v) :: t else (k', v') :: kvSet k v t

/-- Association-list delete (`txn.Delete`): drop every entry at the key. -/
def kvDelete {α : Type} (k : Nat) (l : List (Nat × α)) : List (Nat × α) :=
  l.filter (fun p => p.1 != k)

/-- Go `ExtensionRecord` persisted under `ext:<child>` (`ChildDualHash`,
`Timestamp` and `Publisher` metadata omitted: no claim reads them). -/
structure ExtensionRecord where
  Parent : Nat
  Child : Nat
  Delta : String
deriving DecidableEq

/-- Combined state of `Store`: block bytes plus the three extension-graph
keyspaces. -/
structure StoreState where
  blocks : List (Nat × String)
  ext : List (Nat × ExtensionRecord)
  children : List (Nat × List Nat)
  rootIdx : List (Nat × List Nat)

/-- A freshly opened (in-memory) store. -/
def emptyStore : StoreState := ⟨[], [], [], []⟩

/-- Go `BlockStore.Put`: hash the data and store the block under it
(`Size`/`Timestamp` metadata omitted). -/
def putBlock (e : String → Nat) (s : StoreState) (data : String) : StoreState × Nat :=
  let h := HashElement e data
  ({ s with blocks := kvSet h data s.blocks }, h)

/-- Go `BlockStore.Get` (just the data; `none` is `ErrBlockNotFound`). -/
def getBlock (s : StoreState) (h : Nat) : Option String := kvGet h s.blocks

/-- Go `Store.PutContent`. -/
def PutContent (e : String → Nat) (s : StoreState) (data : String) : StoreState × Nat :=
  putBlock e s data

/-- Go `GetChildren` read of the `children:` index (missing key = empty). -/
def childrenOf (s : StoreState) (parent : Nat) : List Nat :=
  (kvGet parent s.children).getD []

/-- Go `addChild`: append the child to the parent's stored list. -/
def addChildIdx (s : StoreState) (parent child : Nat) : StoreState :=
  { s with children := kvSet parent (childrenOf s parent ++ [child]) s.children }

/-- Go `GetAllDescendants` read of the `root:` index (missing key = empty). -/
def GetAllDescendants (s : StoreState) (root : Nat) : List Nat :=
  (kvGet root s.rootIdx).getD []

/-- Go `addDescendant`: append the descendant to the root's stored list. -/
def addDescendantIdx (s : StoreState) (root descendant : Nat) : StoreState :=
  { s with rootIdx := kvSet root (GetAllDescendants s root ++ [descendant]) s.rootIdx }

/-- Go `findRootInTxn`: walk `ext:` records upward until a hash has no
record.  The Go loop is unbounded; the fuel passed by every caller
exceeds the number of stored records, which bounds every terminating
walk (a cyclic state would make the Go loop diverge). -/
def findRoot (ext : List (Nat × ExtensionRecord)) : Nat → Nat → Nat
  | 0, current => current
  | fuel + 1, current =>
    match kvGet current ext with
    | none => current
    | some record => findRoot ext fuel record.Parent

/-- Go `ExtensionGraph.AddExtension`: write the ext record, append to the
children index, then append to the descendant list of the root found by
walking up from the parent — with no validation of the edge. -/
def AddExtension (s : StoreState) (parent child : Nat) (delta : String) : StoreState :=
  let s1 := { s with ext := kvSet child ⟨parent, child, delta⟩ s.ext }
  let s2 := addChildIdx s1 parent child
  let root := findRoot s2.ext (s2.ext.length + 1) parent
  addDescendantIdx s2 root child

/-- Go `Store.PutExtension`: store the delta as a block, then record the
extension relationship. -/
def PutExtension (e : String → Nat) (s : StoreState) (x : Extension) : StoreState :=
  let s1 := (putBlock e s x.NewData).1
  AddExtension s1 x.ParentHash.Crypto x.NewHash.Crypto x.NewData

/-- Backward walk of `GetChain`, prepending each record found (fuel as in
`findRoot`). -/
def getChainAux (ext : List (Nat × ExtensionRecord)) :
    Nat → Nat → List ExtensionRecord → List ExtensionRecord
  | 0, _, chain => chain
  | fuel + 1, current, chain =>
    match kvGet current ext with
    | none => chain
    | some record => getChainAux ext fuel record.Parent (record :: chain)

/-- Go `GetChain`: the chain of records from the root down to `hash`. -/
def GetChain (s : StoreState) (hash : Nat) : List ExtensionRecord :=
  getChainAux s.ext (s.ext.length + 1) hash []

/-- Go `VerificationResult` (nil hash pointers on failure become `none`). -/
structure VerificationResult where
  Valid : Bool
  Reason : String
  ChainLength : Nat
  RootHash : Option Nat
  FinalHash : Option Nat
deriving DecidableEq

/-- Step loop of `VerifyChain`: check parent continuity and the
homomorphic equality at each record, returning the reason of the first
failure or the final cursor. -/
def walkChain (e : String → Nat) : Nat → Nat → List ExtensionRecord → String ⊕ Nat
  | current, _, [] => Sum.inr current
  | current, i, record :: rest =>
    if record.Parent = current then
      if Extend e record.Parent record.Delta = record.Child then
        walkChain e record.Child (i + 1) rest
      else Sum.inl ("invalid extension at step " ++ toString i ++ ": hash mismatch")
    else Sum.inl ("chain break at step " ++ toString i ++ ": parent mismatch")

/-- Go `ExtensionGraph.VerifyChain`. -/
def VerifyChain (e : String → Nat) (s : StoreState) (root target : Nat) :
    VerificationResult :=
  let chain := GetChain s target
  match walkChain e root 0 chain with
  | Sum.inl reason => ⟨false, reason, 0, none, none⟩
  | Sum.inr current =>
    if current = target then
      ⟨true, "chain verified successfully", chain.length, some root, some target⟩
    else ⟨false, "chain does not reach target hash", 0, none, none⟩

/-- Go `ExtensionGraph.ReconstructContent`: root block bytes with every
delta of the chain appended, `none` if the root block is missing. -/
def Reconstruct (s : StoreState) (hash : Nat) : Option String :=
  let chain := GetChain s hash
  let root := match chain with
    | [] => hash
    | record :: _ => record.Parent
  match getBlock s root with
  | none => none
  | some data => some (data ++ String.join (chain.map (fun record => record.Delta)))

/-! ### storage: garbage collection (`Store.GarbageCollect`) -/

/-- Mark phase membership: in `keepRoots` or listed as a stored
descendant of one of them (the Go `reachable` map). -/
def gcMarked (s : StoreState) (keepRoots : List Nat) (h : Nat) : Bool :=
  keepRoots.contains h || keepRoots.any (fun r => (GetAllDescendants s r).contains h)

/-- Sweep phase: walk the listed block hashes, deleting each unmarked one
and counting the deletions. -/
def gcSweep (marked : Nat → Bool) :
    List Nat → List (Nat × String) × Nat → List (Nat × String) × Nat
  | [], acc => acc
  | k :: ks, (blocks, deleted) =>
    if marked k then gcSweep marked ks (blocks, deleted)
    else gcSweep marked ks (kvDelete k blocks, deleted + 1)

/-- Go `Store.GarbageCollect`: mark `keepRoots` and their stored
descendants, sweep every unmarked block, and return the number deleted. -/
def GarbageCollect (s : StoreState) (keepRoots : List Nat) : StoreState × Nat :=
  let swept := gcSweep (gcMarked s keepRoots) (s.blocks.map Prod.fst) (s.blocks, 0)
  ({ s with blocks := swept.1 }, swept.2)

/-! ### concrete scenario values used by counterexamples and witnesses -/

/-- An extension whose child hash is *not* parent + e(delta): input of the
C1 counterexample. -/
def xBad : Extension := ⟨⟨0, emptyFeatures⟩, "ab", ⟨1, emptyFeatures⟩⟩

/-- The valid "Hello" → " World" extension under `lengthDigest`, used by
the C6 counterexample. -/
def xWorld : Extension :=
  ⟨⟨HashElement lengthDigest "Hello", emptyFeatures⟩, " World",
    ⟨Extend lengthDigest (HashElement lengthDigest "Hello") " World", emptyFeatures⟩⟩

/-- S4 root hash: the element hash of "Hello". -/
def s4h0 (e : String → Nat) : Nat := HashElement e "Hello"

/-- S4 middle hash: the root extended by " World". -/
def s4h1 (e : String → Nat) : Nat := Extend e (s4h0 e) " World"

/-- S4 final hash: the middle hash extended by "!". -/
def s4h2 (e : String → Nat) : Nat := Extend e (s4h1 e) "!"

/-- Element hash of the first delta " World" (its block key). -/
def s4hW (e : String → Nat) : Nat := HashElement e " World"

/-- Element hash of the second delta "!" (its block key). -/
def s4hX (e : String → Nat) : Nat := HashElement e "!"

/-- The S4 store: root "Hello", extended by " World", then by "!"
(mirrors `TestReconstruct`). -/
noncomputable def s4State (e : String → Nat) : StoreState :=
  let s0 := (PutContent e emptyStore "Hello").1
  let c0 := NewContent e "Hello"
  let c1 := ContentExtend e c0 " World"
  let s1 := PutExtension e s0 ⟨GetDualHash c0, " World", GetDualHash c1⟩
  let c2 := ContentExtend e c1 "!"
  PutExtension e s1 ⟨GetDualHash c1, "!", GetDualHash c2⟩

/-! ### basic facts about the embedding -/

theorem Prime_pos : 0 < Prime := by decide

theorem hashElement_lt (e : String → Nat) (data : String) :
    HashElement e data < Prime :=
  Nat.mod_lt _ Prime_pos

theorem kvGet_kvSet_self {α : Type} (k : Nat) (v : α) (l : List (Nat × α)) :
    kvGet k (kvSet k v l) = some v := by
  induction l with
  | nil => simp [kvGet, kvSet]
  | cons p t ih =>
    by_cases h : p.1 = k
    · simp [kvSet, kvGet, h]
    · simp [kvSet, kvGet, h, ih]

/-! ### C2: algebra of the homomorphic set hash -/

/-- C2: hash_set of a concatenation of two disjoint lists is the `Combine`
of the two set hashes, hash_set is invariant under permutation of its
input, and hash_set of the empty set is the identity element 0. -/
theorem hashSet_spec (e : String → Nat) (A B : List String) (_hdisj : A.Disjoint B)
    (l1 l2 : List String) (hperm : l1.Perm l2) :
    HashSet e (A ++ B) = Combine (HashSet e A) (HashSet e B)
      ∧ HashSet e l1 = HashSet e l2
      ∧ HashSet e ([] : List String) = 0 := by
  refine ⟨?_, ?_, ?_⟩
  · simp only [HashSet, Combine, NewHash, List.map_append, List.sum_append]
    rw [Nat.add_mod]
  · simp only [HashSet, NewHash]
    rw [(hperm.map (fun elem => HashElement e elem)).sum_eq]
  · simp [HashSet, NewHash]

/-- Witness for C2 at a concrete digest and concrete disjoint/permuted lists. -/
theorem hashSet_spec_w :
    HashSet lengthDigest (["a"] ++ ["bc"]) =
        Combine (HashSet lengthDigest ["a"]) (HashSet lengthDigest ["bc"])
      ∧ HashSet lengthDigest ["a", "bc", "d"] = HashSet lengthDigest ["d", "a", "bc"]
      ∧ HashSet lengthDigest [] = 0 :=
  hashSet_spec lengthDigest ["a"] ["bc"] (by simp)
    ["a", "bc", "d"] ["d", "a", "bc"] (by decide)

/-! ### C3: extension verification -/

/-- C3 (amended): `verify_extension(H, extend(H,δ), δ)` is true, and
`verify_extension(H, extend(H,δ), δ′)` is false for any δ′ whose element
hash differs from that of δ modulo `Prime`. -/
theorem verifyExtension_spec (e : String → Nat) (H : Nat) (δ δ' : String)
    (hne : HashElement e δ' ≠ HashElement e δ) :
    VerifyExtension e H (Extend e H δ) δ = true
      ∧ VerifyExtension e H (Extend e H δ) δ' = false := by
  constructor
  · simp [VerifyExtension]
  · simp only [VerifyExtension, beq_eq_false_iff_ne, ne_eq, Extend, NewHash]
    intro heq
    apply hne
    have h1 : HashElement e δ' ≡ HashElement e δ [MOD Prime] :=
      Nat.ModEq.add_left_cancel' H heq
    unfold Nat.ModEq at h1
    rw [Nat.mod_eq_of_lt (hashElement_lt e δ'), Nat.mod_eq_of_lt (hashElement_lt e δ)] at h1
    exact h1

/-- Witness for C3 at a concrete digest where the two element hashes differ. -/
theorem verifyExtension_spec_w :
    VerifyExtension lengthDigest 3 (Extend lengthDigest 3 "a") "a" = true
      ∧ VerifyExtension lengthDigest 3 (Extend lengthDigest 3 "a") "xy" = false :=
  verifyExtension_spec lengthDigest 3 "a" "xy" (by decide)

/-- C3 counterexample: as literally stated — false for *any* δ′ ≠ δ — the
claim fails: concretely at a digest with a collision, and in fact for every
digest function `e` there are distinct byte strings whose extensions verify
against each other, because the digest reduced mod `Prime` has a finite
range while byte strings are infinite. -/
theorem verifyExtension_cex :
    ("b" ≠ "a"
        ∧ VerifyExtension collisionDigest 0 (Extend collisionDigest 0 "a") "b" = true)
      ∧ ∀ e : String → Nat, ∃ H : Nat, ∃ δ δ' : String,
          δ' ≠ δ ∧ VerifyExtension e H (Extend e H δ) δ' = true := by
  constructor
  · exact ⟨by decide, by decide⟩
  · intro e
    have hinj : Function.Injective (fun n : Nat => String.mk (List.replicate n 'a')) := by
      intro n m h
      have : (List.replicate n 'a').length = (List.replicate m 'a').length := by
        simpa using congrArg (fun s => s.data.length) h
      simpa using this
    obtain ⟨n, m, hnm, hcoll⟩ := Finite.exists_ne_map_eq_of_infinite
      (fun n : Nat => (⟨HashElement e (String.mk (List.replicate n 'a')), by
        exact hashElement_lt e _⟩ : Fin Prime))
    refine ⟨0, String.mk (List.replicate n 'a'), String.mk (List.replicate m 'a'),
      fun h => hnm (hinj h.symm), ?_⟩
    have hval : HashElement e (String.mk (List.replicate m 'a'))
        = HashElement e (String.mk (List.replicate n 'a')) := by
      simpa [Fin.mk.injEq] using congrArg Fin.val hcoll |>.symm
    simp [VerifyExtension, Extend, NewHash, hval]

/-! ### C1: no homomorphic validation on the storage path -/

/-- C1 (amended): `AddExtension` and `PutExtension` perform no check of
the homomorphic equality: every edge, broken or not, is persisted under
its child hash and no `InvalidExtension` error path exists, so I1 is not
enforced at storage time. -/
theorem addExtension_no_validation (e : String → Nat) (s : StoreState) (x : Extension)
    (p c : Nat) (δ : String) :
    kvGet c (AddExtension s p c δ).ext = some ⟨p, c, δ⟩
      ∧ kvGet x.NewHash.Crypto (PutExtension e s x).ext
          = some ⟨x.ParentHash.Crypto, x.NewHash.Crypto, x.NewData⟩ := by
  constructor
  · simp [AddExtension, addChildIdx, addDescendantIdx, kvGet_kvSet_self]
  · simp [PutExtension, putBlock, AddExtension, addChildIdx, addDescendantIdx,
      kvGet_kvSet_self]

/-- C1 counterexample: an extension violating the homomorphic equality
(child 1 ≠ 0 + e("ab") mod p) is persisted by `PutExtension` with no
error, contradicting "the edge is not persisted". -/
theorem addExtension_cex :
    kvGet 1 (PutExtension lengthDigest emptyStore xBad).ext = some ⟨0, 1, "ab"⟩
      ∧ Extend lengthDigest 0 "ab" ≠ 1 := by decide

/-! ### C5: children index duplicates and silent overwrite -/

/-- C5 (amended): `addChild` appends the child to the parent's list
unconditionally (so repeating an `add_extension` duplicates the entry),
and a second `add_extension` for the same child silently overwrites the
stored record with the new parent and delta instead of rejecting it. -/
theorem addExtension_append_overwrite (s : StoreState) (p c : Nat) (δ : String)
    (p' : Nat) (δ' : String) :
    childrenOf (AddExtension s p c δ) p = childrenOf s p ++ [c]
      ∧ kvGet c (AddExtension (AddExtension s p c δ) p' c δ').ext = some ⟨p', c, δ'⟩ := by
  constructor
  · simp [AddExtension, addChildIdx, addDescendantIdx, childrenOf, kvGet_kvSet_self]
  · simp [AddExtension, addChildIdx, addDescendantIdx, kvGet_kvSet_self]

/-- C5 counterexample: adding the same edge twice leaves the duplicate
entry [5, 5] in the children index, and re-adding child 5 with a
different parent and delta overwrites the record instead of being
rejected. -/
theorem addChild_dup_cex :
    childrenOf (AddExtension (AddExtension emptyStore 0 5 "x") 0 5 "x") 0 = [5, 5]
      ∧ kvGet 5 (AddExtension (AddExtension emptyStore 0 5 "x") 7 5 "y").ext
          = some ⟨7, 5, "y"⟩
      ∧ ((7 : Nat), "y") ≠ ((0 : Nat), "x") := by decide

/-! ### C6: garbage collection -/

theorem gcSweep_spec (m : Nat → Bool) :
    ∀ (keys : List Nat) (B : List (Nat × String)) (n : Nat),
      gcSweep m keys (B, n)
        = (B.filter (fun b => m b.1 || !(keys.contains b.1)),
            n + (keys.filter (fun k => !m k)).length) := by
  intro keys
  induction keys with
  | nil => intro B n; simp [gcSweep]
  | cons k ks ih =>
    intro B n
    by_cases hmk : m k = true
    · rw [gcSweep, if_pos hmk, ih]
      simp only [Prod.mk.injEq]
      refine ⟨?_, ?_⟩
      · apply List.filter_congr
        intro b _
        by_cases hbk : b.1 = k
        · simp [hbk, hmk]
        · simp [List.contains_cons, hbk]
      · simp [hmk]
    · rw [gcSweep, if_neg hmk, ih]
      rw [Bool.not_eq_true] at hmk
      simp only [Prod.mk.injEq]
      refine ⟨?_, ?_⟩
      · rw [kvDelete, List.filter_filter]
        apply List.filter_congr
        intro b _
        by_cases hbk : b.1 = k
        · simp [hbk, hmk]
        · simp [List.contains_cons, hbk]
      · simp [hmk, Nat.add_comm, Nat.add_assoc, Nat.add_left_comm]

theorem length_filter_map_fst (B : List (Nat × String)) (q : Nat → Bool) :
    ((B.map Prod.fst).filter q).length = (B.filter (fun b => q b.1)).length := by
  induction B with
  | nil => simp
  | cons b t ih =>
    by_cases hb : q b.1
    · simp [hb, ih]
    · simp [hb, ih]

/-- C6 (amended): `GarbageCollect` deletes exactly the blocks that are
neither in `keep_roots` nor listed in the stored descendant index of one
of them, and returns their number — but it leaves every extension record
and every child/descendant index entry untouched. -/
theorem gc_spec (s : StoreState) (keep : List Nat) :
    (GarbageCollect s keep).1.blocks
        = s.blocks.filter (fun b => gcMarked s keep b.1)
      ∧ (GarbageCollect s keep).2
        = (s.blocks.filter (fun b => !gcMarked s keep b.1)).length
      ∧ (GarbageCollect s keep).1.ext = s.ext
      ∧ (GarbageCollect s keep).1.children = s.children
      ∧ (GarbageCollect s keep).1.rootIdx = s.rootIdx := by
  refine ⟨?_, ?_, rfl, rfl, rfl⟩
  · rw [show (GarbageCollect s keep).1.blocks
        = (gcSweep (gcMarked s keep) (s.blocks.map Prod.fst) (s.blocks, 0)).1 from rfl]
    rw [gcSweep_spec]
    apply List.filter_congr
    intro b hb
    have hmem : b.1 ∈ s.blocks.map Prod.fst := List.mem_map_of_mem Prod.fst hb
    have hc : (s.blocks.map Prod.fst).contains b.1 = true := by
      simpa [List.contains] using List.elem_eq_true_of_mem hmem
    show (gcMarked s keep b.1 || !((s.blocks.map Prod.fst).contains b.1))
        = gcMarked s keep b.1
    rw [hc]
    simp
  · rw [show (GarbageCollect s keep).2
        = (gcSweep (gcMarked s keep) (s.blocks.map Prod.fst) (s.blocks, 0)).2 from rfl]
    rw [gcSweep_spec]
    simp [length_filter_map_fst]

/-- C6 counterexample: after storing "Hello" and its " World" extension,
`GarbageCollect []` deletes both blocks (root and delta, count 2), yet
the extension record of the deleted root's child and the root's
children-index entry both survive, contradicting "removes the extension
records and child/descendant index entries of every deleted block in the
same pass". -/
theorem gc_cex :
    (GarbageCollect (PutExtension lengthDigest
        (PutContent lengthDigest emptyStore "Hello").1 xWorld) []).1.blocks = []
      ∧ (GarbageCollect (PutExtension lengthDigest
          (PutContent lengthDigest emptyStore "Hello").1 xWorld) []).2 = 2
      ∧ kvGet 11 (GarbageCollect (PutExtension lengthDigest
          (PutContent lengthDigest emptyStore "Hello").1 xWorld) []).1.ext
          = some ⟨5, 11, " World"⟩
      ∧ kvGet 5 (GarbageCollect (PutExtension lengthDigest
          (PutContent lengthDigest emptyStore "Hello").1 xWorld) []).1.children
          = some [11] := by decide

/-! ### C4: the S4 chain scenario and chain order -/

theorem getChainAux_chain (ext : List (Nat × ExtensionRecord))
    (wf : ∀ k r, kvGet k ext = some r → r.Child = k) :
    ∀ (fuel cur : Nat) (acc : List ExtensionRecord),
      List.Chain' (fun r r' => r'.Parent = r.Child) acc →
      (∀ r, acc.head? = some r → r.Parent = cur) →
      List.Chain' (fun r r' => r'.Parent = r.Child) (getChainAux ext fuel cur acc) := by
  intro fuel
  induction fuel with
  | zero => intro cur acc hacc _; exact hacc
  | succ fuel ih =>
    intro cur acc hacc hhead
    rw [getChainAux]
    cases hcur : kvGet cur ext with
    | none => exact hacc
    | some r =>
      apply ih
      · rw [List.chain'_cons']
        refine ⟨?_, hacc⟩
        intro b hb
        rw [hhead b hb, wf cur r hcur]
      · intro r' hr'
        simp only [List.head?_cons, Option.some.injEq] at hr'
        rw [← hr']

/-- C4: in the store built from root "Hello" extended by " World" then by
"!", `get_chain` of the final hash returns the two extension records in
root-to-leaf order, `reconstruct` of the final hash returns the bytes
"Hello World!", and `verify_chain(root, final)` is valid with
`chain_length = 2`; in general, in any store whose `ext:` records are
keyed by their own child hash, `get_chain` returns a list in which each
record's parent is the previous record's child (root-to-leaf order). -/
theorem s4_chain_spec (e : String → Nat)
    (h10 : s4h1 e ≠ s4h0 e) (h20 : s4h2 e ≠ s4h0 e) (h21 : s4h2 e ≠ s4h1 e)
    (hW0 : s4hW e ≠ s4h0 e) (hX0 : s4hX e ≠ s4h0 e) (hXW : s4hX e ≠ s4hW e) :
    GetChain (s4State e) (s4h2 e)
        = [⟨s4h0 e, s4h1 e, " World"⟩, ⟨s4h1 e, s4h2 e, "!"⟩]
      ∧ Reconstruct (s4State e) (s4h2 e) = some "Hello World!"
      ∧ (VerifyChain e (s4State e) (s4h0 e) (s4h2 e)).Valid = true
      ∧ (VerifyChain e (s4State e) (s4h0 e) (s4h2 e)).ChainLength = 2
      ∧ ∀ (s : StoreState) (h : Nat),
          (∀ k r, kvGet k s.ext = some r → r.Child = k) →
          List.Chain' (fun r r' => r'.Parent = r.Child) (GetChain s h) := by
  simp only [s4h0, s4h1, s4h2, s4hW, s4hX] at h10 h20 h21 hW0 hX0 hXW ⊢
  have hs4 : s4State e =
      ⟨[(HashElement e "Hello", "Hello"), (HashElement e " World", " World"),
          (HashElement e "!", "!")],
        [(Extend e (HashElement e "Hello") " World",
            ⟨HashElement e "Hello", Extend e (HashElement e "Hello") " World", " World"⟩),
          (Extend e (Extend e (HashElement e "Hello") " World") "!",
            ⟨Extend e (HashElement e "Hello") " World",
              Extend e (Extend e (HashElement e "Hello") " World") "!", "!"⟩)],
        [(HashElement e "Hello", [Extend e (HashElement e "Hello") " World"]),
          (Extend e (HashElement e "Hello") " World",
            [Extend e (Extend e (HashElement e "Hello") " World") "!"])],
        [(HashElement e "Hello",
            [Extend e (HashElement e "Hello") " World",
              Extend e (Extend e (HashElement e "Hello") " World") "!"])]⟩ := by
    simp only [s4State, PutContent, PutExtension, putBlock, AddExtension, addChildIdx,
      addDescendantIdx, childrenOf, GetAllDescendants, NewContent, ContentExtend,
      GetDualHash, emptyStore, kvSet, kvGet, findRoot, List.length_cons, List.length_nil,
      List.length_singleton, h10, h20, h21, hW0, hX0, hXW, Ne.symm h10, Ne.symm h20,
      Ne.symm h21, Ne.symm hW0, Ne.symm hX0, Ne.symm hXW, if_true, if_false,
      Option.getD_none, Option.getD_some, List.nil_append, List.cons_append]
  have hchain : GetChain (s4State e)
      (Extend e (Extend e (HashElement e "Hello") " World") "!")
      = [⟨HashElement e "Hello", Extend e (HashElement e "Hello") " World", " World"⟩,
          ⟨Extend e (HashElement e "Hello") " World",
            Extend e (Extend e (HashElement e "Hello") " World") "!", "!"⟩] := by
    rw [hs4]
    simp only [GetChain, getChainAux, kvGet, List.length_cons, List.length_nil, h10, h20,
      h21, Ne.symm h10, Ne.symm h20, Ne.symm h21, if_true, if_false]
  have hwalk : VerifyChain e (s4State e) (HashElement e "Hello")
      (Extend e (Extend e (HashElement e "Hello") " World") "!")
      = ⟨true, "chain verified successfully", 2, some (HashElement e "Hello"),
          some (Extend e (Extend e (HashElement e "Hello") " World") "!")⟩ := by
    rw [VerifyChain.eq_def]
    simp only [hchain, walkChain, List.length_cons, List.length_nil]
    norm_num
  refine ⟨hchain, ?_, ?_, ?_, ?_⟩
  · rw [Reconstruct.eq_def, hchain, hs4]
    simp only [getBlock, kvGet, eq_self_iff_true, if_true]
    rfl
  · rw [hwalk]
  · rw [hwalk]
  · intro s h wf
    exact getChainAux_chain s.ext wf _ h [] List.chain'_nil (by intro r hr; cases hr)

/-- Witness for C4 at a concrete digest: all five hashes are distinct and
the scenario conclusions hold. -/
theorem s4_chain_spec_w :
    Reconstruct (s4State lengthDigest) (s4h2 lengthDigest) = some "Hello World!"
      ∧ (VerifyChain lengthDigest (s4State lengthDigest) (s4h0 lengthDigest)
          (s4h2 lengthDigest)).Valid = true
      ∧ (VerifyChain lengthDigest (s4State lengthDigest) (s4h0 lengthDigest)
          (s4h2 lengthDigest)).ChainLength = 2 :=
  have h := s4_chain_spec lengthDigest (by decide) (by decide) (by decide) (by decide)
    (by decide) (by decide)
  ⟨h.2.1, h.2.2.1, h.2.2.2.1⟩

/-! ### C8: gatekeeper counters -/

theorem shouldForward_preserves (e : String → Nat) (gk : Gatekeeper) (x : Extension)
    (q : Query) (h : gkInvariant gk) : gkInvariant (ShouldForward e gk x q).1 := by
  unfold gkInvariant at h ⊢
  simp only [ShouldForward]
  split_ifs <;> simp <;> omega

/-- C8: after any sequence of `ShouldForward` calls starting from fresh
counters, `total_seen = crypto_blocked + semantic_blocked + forwarded`:
every call increments `total_seen` and exactly one outcome counter. -/
theorem gatekeeper_counts (e : String → Nat) (events : List (Extension × Query)) :
    gkInvariant (events.foldl
      (fun gk ev => (ShouldForward e gk ev.1 ev.2).1) newGatekeeper) := by
  have gen : ∀ (l : List (Extension × Query)) (gk : Gatekeeper), gkInvariant gk →
      gkInvariant (l.foldl (fun gk ev => (ShouldForward e gk ev.1 ev.2).1) gk) := by
    intro l
    induction l with
    | nil => intro gk h; exact h
    | cons ev t ih =>
      intro gk h
      exact ih _ (shouldForward_preserves e gk ev.1 ev.2 h)
  exact gen events newGatekeeper rfl

/-! ### C9: a first publish is always crypto-valid -/

/-- C9: the extension constructed by `Node.Publish` (parent hash the
identity 0) passes crypto verification, because `extend(0, data)` equals
`e(data)`, which is the content's own hash; hence its decision at any
receiving gatekeeper has `CryptoValid = true`. -/
theorem publish_crypto_valid (e : String → Nat) (data : String) :
    Extend e Zero data = HashElement e data
      ∧ VerifyCrypto e (Publish (NewContent e data)) = true
      ∧ ∀ (gk : Gatekeeper) (q : Query),
          ((ShouldForward e gk (Publish (NewContent e data)) q).2).CryptoValid = true := by
  have h1 : Extend e Zero data = HashElement e data := by
    simp [Extend, Zero, NewHash, HashElement, Nat.mod_mod_of_dvd]
  have h2 : VerifyCrypto e (Publish (NewContent e data)) = true := by
    simp [VerifyCrypto, Publish, NewContent, GetDualHash, VerifyExtension, h1]
  refine ⟨h1, h2, ?_⟩
  intro gk q
  simp only [ShouldForward, h2]
  split_ifs <;> simp_all

/-! ### C7: kernel bounds and self-similarity -/

theorem cosine_self (a : List (String × ℝ))
    (h : 0 < Finset.sum (tfKeys a) (fun k => tfVal a k * tfVal a k)) :
    CosineSimilarity a a = 1 := by
  simp only [CosineSimilarity, Finset.union_self]
  rw [if_neg]
  · rw [Real.mul_self_sqrt h.le, div_self (ne_of_gt h)]
  · rw [not_or]
    constructor <;> exact ne_of_gt (Real.sqrt_pos.mpr h)

theorem jaccard_self (a : Finset String) : JaccardSimilarity a a = 1 := by
  by_cases h : a.card = 0
  · simp [JaccardSimilarity, h]
  · simp only [JaccardSimilarity]
    rw [if_neg (by tauto)]
    simp only [Finset.union_self, Finset.inter_self]
    rw [if_neg h]
    exact div_self (Nat.cast_ne_zero.mpr h)

theorem structural_self (a : Features) : StructuralSimilarity a a = 1 := by
  simp only [StructuralSimilarity, max_self, sub_self, abs_zero, zero_div, sub_zero]
  by_cases h1 : (a.WordCount : ℝ) = 0 <;> by_cases h2 : (a.UniqueWords : ℝ) = 0
  · rw [if_pos ⟨h1, h2⟩]
  · have hlt : (0 : ℝ) < (a.UniqueWords : ℝ) :=
      lt_of_le_of_ne (Nat.cast_nonneg _) (Ne.symm h2)
    rw [if_neg (by tauto), if_neg (by simp [h1]), if_pos hlt]
    norm_num
  · have hlt : (0 : ℝ) < (a.WordCount : ℝ) :=
      lt_of_le_of_ne (Nat.cast_nonneg _) (Ne.symm h1)
    rw [if_neg (by tauto), if_pos hlt, if_neg (by simp [h2])]
    norm_num
  · have hlt1 : (0 : ℝ) < (a.WordCount : ℝ) :=
      lt_of_le_of_ne (Nat.cast_nonneg _) (Ne.symm h1)
    have hlt2 : (0 : ℝ) < (a.UniqueWords : ℝ) :=
      lt_of_le_of_ne (Nat.cast_nonneg _) (Ne.symm h2)
    rw [if_neg (by tauto), if_pos hlt1, if_pos hlt2]
    norm_num

theorem normalize_weight_sum (P : KernelParams) :
    P.Normalize.WeightSemantic + P.Normalize.WeightLexical
      + P.Normalize.WeightStructural = 1 := by
  simp only [KernelParams.Normalize]
  by_cases h : P.WeightSemantic + P.WeightLexical + P.WeightStructural = 0
  · rw [if_pos h]
    norm_num [DefaultParams]
  · rw [if_neg h]
    field_simp

/-- C7 (amended): `similarity(a, b, P)` always lies in [0, 1] (the kernel
clamps); and `similarity(a, a, P) = 1` for any `P` with at least one
positive weight, provided `a`'s TF vector has positive squared magnitude
(a record with an all-zero TF vector falls in the zero-magnitude branch
of the cosine and its self-similarity drops below 1). -/
theorem similarity_spec :
    (∀ (a b : Features) (P : KernelParams),
        0 ≤ Similarity a b P ∧ Similarity a b P ≤ 1)
      ∧ ∀ (a : Features) (P : KernelParams),
          (0 < P.WeightSemantic ∨ 0 < P.WeightLexical ∨ 0 < P.WeightStructural) →
          0 < tfNormSq a → Similarity a a P = 1 := by
  constructor
  · intro a b P
    constructor
    · exact le_max_left 0 _
    · exact max_le (by norm_num) (min_le_left 1 _)
  · intro a P _hpos hmag
    have hc : CosineSimilarity a.TFIDF a.TFIDF = 1 := cosine_self a.TFIDF hmag
    have hj : JaccardSimilarity a.Ngrams a.Ngrams = 1 := jaccard_self a.Ngrams
    have hs : StructuralSimilarity a a = 1 := structural_self a
    simp only [Similarity, hc, hj, hs, mul_one]
    rw [normalize_weight_sum]
    norm_num

/-- Witness for C7: a one-token feature record under the default
parameters has self-similarity exactly 1. -/
theorem similarity_spec_w :
    (0 : ℝ) < DefaultParams.WeightSemantic
      ∧ 0 < tfNormSq ⟨[("a", 1)], ∅, 1, 1, 1⟩
      ∧ Similarity ⟨[("a", 1)], ∅, 1, 1, 1⟩ ⟨[("a", 1)], ∅, 1, 1, 1⟩ DefaultParams = 1 := by
  have hpos : (0 : ℝ) < DefaultParams.WeightSemantic := by norm_num [DefaultParams]
  have hmag : (0 : ℝ) < tfNormSq ⟨[("a", 1)], ∅, 1, 1, 1⟩ := by
    simp [tfNormSq, tfKeys, tfVal, List.lookup]
  exact ⟨hpos, hmag, similarity_spec.2 _ DefaultParams (Or.inl hpos) hmag⟩

theorem defaultParams_normalize : DefaultParams.Normalize = DefaultParams := by
  simp only [KernelParams.Normalize, DefaultParams]
  norm_num

/-- C7 counterexample: the all-empty feature record (the features of
empty content) has self-similarity 0.4 under the default parameters,
which have a positive weight — so `similarity(a,a,P) = 1` fails as
universally stated. -/
theorem similarity_self_cex :
    Similarity emptyFeatures emptyFeatures DefaultParams ≠ 1
      ∧ 0 < DefaultParams.WeightSemantic := by
  have hc : CosineSimilarity ([] : List (String × ℝ)) [] = 0 := by
    simp [CosineSimilarity, tfKeys]
  have hj : JaccardSimilarity (∅ : Finset String) ∅ = 1 := by
    simp [JaccardSimilarity]
  have hs : StructuralSimilarity ⟨[], ∅, 0, 0, 0⟩ ⟨[], ∅, 0, 0, 0⟩ = 1 := by
    simp [StructuralSimilarity]
  constructor
  · simp only [Similarity, defaultParams_normalize, emptyFeatures, hc, hj, hs]
    norm_num [DefaultParams]
  · norm_num [DefaultParams]

/-! ### C10: all-zero weights -/

/-- C10 (amended): with an all-zero weight vector, `Normalize` silently
substitutes `DefaultParams` wholesale — the default weights *and* the
default threshold 0.5, discarding the caller's threshold — and
`Similarity` is then computed exactly as with `DefaultParams`. -/
theorem normalize_zero_weights (t : ℝ) (a b : Features) :
    KernelParams.Normalize ⟨0, 0, 0, t⟩ = DefaultParams
      ∧ Similarity a b ⟨0, 0, 0, t⟩ = Similarity a b DefaultParams := by
  have h0 : KernelParams.Normalize ⟨0, 0, 0, t⟩ = DefaultParams := by
    simp [KernelParams.Normalize]
  refine ⟨h0, ?_⟩
  simp only [Similarity, h0, defaultParams_normalize]

/-- C10 counterexample: a caller threshold of 0.9 with all-zero weights
is replaced by the default threshold 0.5, contradicting "keeping the
caller's threshold". -/
theorem normalize_threshold_cex :
    (KernelParams.Normalize ⟨0, 0, 0, 0.9⟩).Threshold = 0.5
      ∧ (0.9 : ℝ) ≠ 0.5 := by
  constructor
  · simp [KernelParams.Normalize, DefaultParams]
  · norm_num

end Tera
